import Mathlib

/-!
Verification of the ExperimentRecorder core against its specification.

The development shallowly embeds the Python sources of the repository:

* `src/exprec/common/packing.py` — the msgpack-based codec with the two
  domain extension encodings (`MessagePacker.encode_vartype`,
  `MessageUnpacker.decode_vartype`);
* the message-schema validator (`validate_message`); the schema table used
  by the running server lives in `exprec/common/messages.py`, which is not
  present under `src/` (only its callers and tests are), so the table is
  modelled from the specification, while the validation mechanism follows
  `src/exprec/messages.py`;
* `src/exprec/exp_interface.py` — the buffered write pipeline
  (`BufferedExperimentInterface` and `_FlushThread`);
* `src/exprec/server/protocol.py` — the handshake of
  `SingleExperimentServer`.

Python values that can appear in a message are modelled by the mutual
inductive `PyVal`/`PyList`/`PyMap`.  Machine floats (msgpack `float64`)
and datetimes are modelled as exact rationals: a datetime is identified
with its POSIX timestamp, so `datetime.timestamp()` and
`datetime.fromtimestamp()` are identities of the model.  Dict keys are
strings, as everywhere in the recorded protocol.  Wall-clock reads
(`datetime.now()`) are modelled by a logical clock that ticks at every
call, i.e. the wall clock is assumed monotone.
-/

namespace Exprec

mutual

/-- Values of the message domain: the leaves accepted by the codec
(`int`, `float`, `bool`, `str`, `bytes`, `None`), the two domain values
(`datetime.datetime` as its POSIX timestamp, `uuid.UUID` as its 128-bit
integer), and nested sequences and string-keyed maps. -/
inductive PyVal where
  | vint (n : Int)
  | vfloat (q : ℚ)
  | vbool (b : Bool)
  | vstr (s : String)
  | vbytes (bs : List Nat)
  | vnone
  | vdate (ts : ℚ)
  | vuuid (u : Fin (2 ^ 128))
  | vlist (xs : PyList)
  | vmap (kvs : PyMap)

/-- Sequences of `PyVal`. -/
inductive PyList where
  | nil
  | cons (hd : PyVal) (tl : PyList)

/-- String-keyed maps of `PyVal` (Python dicts as they occur on the wire). -/
inductive PyMap where
  | nil
  | cons (key : String) (val : PyVal) (tl : PyMap)

end

namespace PyMap

/-- Lookup of a key in a map (Python `data[k]` / `k in data`), first
occurrence wins, as in a Python dict where keys are unique. -/
def lookup (k : String) : PyMap → Option PyVal
  | .nil => none
  | .cons k' v tl => if k' = k then some v else lookup k tl

/-- Membership test for a key (Python `k in data`). -/
def containsKey (k : String) (m : PyMap) : Bool :=
  (m.lookup k).isSome

/-- The entries of a map as a list of pairs (Python `data.items()`). -/
def entries : PyMap → List (String × PyVal)
  | .nil => []
  | .cons k v tl => (k, v) :: entries tl

/-- Conjunction of a Boolean predicate over all entries of a map. -/
def allEntries (p : String → PyVal → Bool) : PyMap → Bool
  | .nil => true
  | .cons k v tl => p k v && allEntries p tl

end PyMap

/-! ### Hexadecimal formatting and parsing

The packer serializes a UUID with the Python format spec 32x applied
to the 128-bit integer: lowercase hexadecimal, right-aligned in a field
of width 32, padded with SPACES (the zero flag is absent).
`MessageUnpacker.decode_vartype` feeds the string back to `uuid.UUID`,
whose hex-string constructor strips surrounding braces, drops dashes,
requires exactly 32 remaining characters and converts them with
Python `int(s, 16)`, which tolerates surrounding whitespace and an
optional sign.  (The `urn:`/`uuid:` prefix removals of `uuid.UUID` are
omitted from the model: no string in this development contains them.
Underscore digit separators accepted by `int` are likewise omitted.) -/

/-- Lowercase hexadecimal digit character for `n < 16`. -/
def hexDigitChar (n : Nat) : Char :=
  if n < 10 then Char.ofNat (48 + n) else Char.ofNat (87 + n)

/-- Hexadecimal digits of a positive number, least-significant first. -/
def natToHexRev : Nat → List Char
  | 0 => []
  | n + 1 => hexDigitChar ((n + 1) % 16) :: natToHexRev ((n + 1) / 16)
decreasing_by exact Nat.div_lt_self (Nat.succ_pos n) (by norm_num)

/-- Lowercase hexadecimal digits of a number, most-significant first
(Python format with spec x). -/
def natToHex (n : Nat) : List Char :=
  if n = 0 then ['0'] else (natToHexRev n).reverse

/-- Python format with spec 32x: lowercase hex, right-aligned to width
32 with space padding. -/
def format32x (n : Nat) : String :=
  ⟨List.replicate (32 - (natToHex n).length) ' ' ++ natToHex n⟩

/-- Numeric value of a hexadecimal digit character; `none` on other
characters. -/
def hexCharVal (c : Char) : Option Nat :=
  if 48 ≤ c.toNat ∧ c.toNat ≤ 57 then some (c.toNat - 48)
  else if 97 ≤ c.toNat ∧ c.toNat ≤ 102 then some (c.toNat - 87)
  else if 65 ≤ c.toNat ∧ c.toNat ≤ 70 then some (c.toNat - 55)
  else none

/-- Value of a nonempty list of hexadecimal digit characters; `none` if
empty or if any character is not a hex digit. -/
def parseHexDigits (cs : List Char) : Option Nat :=
  if cs.isEmpty then none
  else if cs.all (fun c => (hexCharVal c).isSome) then
    some (cs.foldl (fun a c => a * 16 + (hexCharVal c).getD 0) 0)
  else none

/-- Python `int(s, 16)`: surrounding whitespace is ignored, an optional
sign precedes the digits. -/
def pyIntOfHex (cs : List Char) : Option Int :=
  let t := ((cs.dropWhile (·.isWhitespace)).reverse.dropWhile
    (·.isWhitespace)).reverse
  if t.head? = some '+' then (parseHexDigits t.tail).map Int.ofNat
  else if t.head? = some '-' then
    (parseHexDigits t.tail).map (fun n => -(n : Int))
  else (parseHexDigits t).map Int.ofNat

/-- Character class stripped from the ends of the string by
`uuid.UUID`, which strips the two brace characters from both ends. -/
def isBraceChar (c : Char) : Bool :=
  c = '\x7b' ∨ c = '\x7d'

/-- Models the hex-string constructor of `uuid.UUID`: strip surrounding braces,
drop dashes, require 32 characters, convert with `int(s, 16)` and check
the 128-bit range; `none` models the raised `ValueError`. -/
def pyUUIDFromHex (s : String) : Option (Fin (2 ^ 128)) :=
  let cs := (s.data.dropWhile isBraceChar).reverse.dropWhile isBraceChar
  let cs := cs.reverse.filter (· ≠ '-')
  if cs.length = 32 then
    match pyIntOfHex cs with
    | some v =>
        if h : 0 ≤ v ∧ v < 2 ^ 128 then
          some ⟨v.toNat, by omega⟩
        else none
    | none => none
  else none

/-! ### The codec (`src/exprec/common/packing.py`)

`MessagePacker` passes `encode_vartype` as the msgpack `default` hook: it
is invoked on every value the packer cannot serialize natively, i.e. on
datetimes and UUIDs, and its result is then packed recursively.
`MessageUnpacker` passes `decode_vartype` as `object_hook`: it is applied
bottom-up to every completed map.  `encodeTree`/`decodeTree` compose these
hooks with the (lossless) msgpack byte serialization of the value tree,
so that `decodeTree ∘ encodeTree` models decode-after-encode of the
codec pair. -/

/-- The leaf rewrite `MessagePacker.encode_vartype`: a datetime becomes
a single-key map from __date__ to its POSIX timestamp, and a UUID becomes
a single-key map from __uuid__ to its 128-bit integer formatted with the
spec 32x; everything else is returned unchanged. -/
def encode_vartype : PyVal → PyVal
  | .vdate t => .vmap (.cons "__date__" (.vfloat t) .nil)
  | .vuuid u => .vmap (.cons "__uuid__" (.vstr (format32x u.val)) .nil)
  | v => v

/-- Errors a decode can raise (`TypeError` from `fromtimestamp` on a
non-numeric argument, `ValueError` from `uuid.UUID`, `TypeError` from
`uuid.UUID` on a non-string). -/
inductive DecodeErr where
  | typeErr
  | valueErr
  deriving DecidableEq, Repr

/-- The `MessageUnpacker.decode_vartype` (the msgpack `object_hook`): a map
containing the key `__date__` becomes `datetime.fromtimestamp` of that
value (ints and bools are accepted by `fromtimestamp` since `bool` is an
`int` subtype), otherwise a map containing `__uuid__` becomes
`uuid.UUID` of that value, otherwise the map passes through. -/
def decode_vartype (kvs : PyMap) : Except DecodeErr PyVal :=
  match kvs.lookup "__date__" with
  | some dv =>
      match dv with
      | .vfloat q => .ok (.vdate q)
      | .vint n => .ok (.vdate (n : ℚ))
      | .vbool b => .ok (.vdate (if b then 1 else 0))
      | _ => .error .typeErr
  | none =>
      match kvs.lookup "__uuid__" with
      | some uv =>
          match uv with
          | .vstr s =>
              match pyUUIDFromHex s with
              | some u => .ok (.vuuid u)
              | none => .error .valueErr
          | _ => .error .typeErr
      | none => .ok (.vmap kvs)

mutual

/-- The value tree as serialized by `MessagePacker`: datetime and UUID
leaves are rewritten by `encode_vartype`, containers are traversed. -/
def encodeTree : PyVal → PyVal
  | .vdate t => encode_vartype (.vdate t)
  | .vuuid u => encode_vartype (.vuuid u)
  | .vlist xs => .vlist (encodeTreeL xs)
  | .vmap kvs => .vmap (encodeTreeM kvs)
  | v => v

/-- The `encodeTree` mapped over a sequence. -/
def encodeTreeL : PyList → PyList
  | .nil => .nil
  | .cons hd tl => .cons (encodeTree hd) (encodeTreeL tl)

/-- The `encodeTree` mapped over the values of a map. -/
def encodeTreeM : PyMap → PyMap
  | .nil => .nil
  | .cons k v tl => .cons k (encodeTree v) (encodeTreeM tl)

end

mutual

/-- The value tree as produced by `MessageUnpacker`: `decode_vartype` is
applied (bottom-up) to every map of the decoded tree. -/
def decodeTree : PyVal → Except DecodeErr PyVal
  | .vlist xs =>
      match decodeTreeL xs with
      | .ok xs' => .ok (.vlist xs')
      | .error e => .error e
  | .vmap kvs =>
      match decodeTreeM kvs with
      | .ok kvs' => decode_vartype kvs'
      | .error e => .error e
  | v => .ok v

/-- The `decodeTree` mapped over a sequence. -/
def decodeTreeL : PyList → Except DecodeErr PyList
  | .nil => .ok .nil
  | .cons hd tl =>
      match decodeTree hd, decodeTreeL tl with
      | .ok h, .ok t => .ok (.cons h t)
      | .error e, _ => .error e
      | _, .error e => .error e

/-- The `decodeTree` mapped over the values of a map. -/
def decodeTreeM : PyMap → Except DecodeErr PyMap
  | .nil => .ok .nil
  | .cons k v tl =>
      match decodeTree v, decodeTreeM tl with
      | .ok v', .ok t => .ok (.cons k v' t)
      | .error e, _ => .error e
      | _, .error e => .error e

end

mutual

/-- A value is reserved-key free when none of its maps (at any depth)
contains the extension keys `__date__` or `__uuid__`. -/
def reservedFree : PyVal → Bool
  | .vlist xs => reservedFreeL xs
  | .vmap kvs =>
      !kvs.containsKey "__date__" && !kvs.containsKey "__uuid__" &&
        reservedFreeM kvs
  | _ => true

/-- The `reservedFree` over a sequence. -/
def reservedFreeL : PyList → Bool
  | .nil => true
  | .cons hd tl => reservedFree hd && reservedFreeL tl

/-- The `reservedFree` over the values of a map. -/
def reservedFreeM : PyMap → Bool
  | .nil => true
  | .cons _ v tl => reservedFree v && reservedFreeM tl

end

/-! ### Round-trip facts about the hexadecimal helpers -/

/-- Character class produced by `hexDigitChar`: `0`-`9` or `a`-`f`. -/
def isLowerHexDigit (c : Char) : Bool :=
  (48 ≤ c.toNat && c.toNat ≤ 57) || (97 ≤ c.toNat && c.toNat ≤ 102)

theorem hexDigitChar_isLowerHex {d : Nat} (hd : d < 16) :
    isLowerHexDigit (hexDigitChar d) = true := by
  interval_cases d <;> decide

theorem hexCharVal_hexDigitChar {d : Nat} (hd : d < 16) :
    hexCharVal (hexDigitChar d) = some d := by
  interval_cases d <;> decide

theorem lowerHex_hexCharVal_isSome {c : Char} (h : isLowerHexDigit c = true) :
    (hexCharVal c).isSome = true := by
  simp only [isLowerHexDigit, Bool.or_eq_true, Bool.and_eq_true,
    decide_eq_true_eq] at h
  unfold hexCharVal
  rcases h with ⟨h1, h2⟩ | ⟨h1, h2⟩ <;> split <;> simp_all

theorem lowerHex_not_whitespace {c : Char} (h : isLowerHexDigit c = true) :
    c.isWhitespace = false := by
  refine Bool.eq_false_iff.mpr (fun hw => ?_)
  have hc : c = ' ' ∨ c = '\t' ∨ c = '\r' ∨ c = '\n' := by
    simpa [Char.isWhitespace, or_assoc] using hw
  rcases hc with h' | h' | h' | h' <;> (subst h'; exact absurd h (by decide))

theorem lowerHex_ne_dash {c : Char} (h : isLowerHexDigit c = true) :
    c ≠ '-' := by
  intro hc; subst hc; exact absurd h (by decide)

theorem lowerHex_ne_plus {c : Char} (h : isLowerHexDigit c = true) :
    c ≠ '+' := by
  intro hc; subst hc; exact absurd h (by decide)

theorem lowerHex_not_brace {c : Char} (h : isLowerHexDigit c = true) :
    isBraceChar c = false := by
  refine Bool.eq_false_iff.mpr (fun hw => ?_)
  have hc : c = '\x7b' ∨ c = '\x7d' := by
    simpa [isBraceChar] using hw
  rcases hc with h' | h' <;> (subst h'; exact absurd h (by decide))

theorem natToHexRev_mem_lowerHex {n : Nat} :
    ∀ c ∈ natToHexRev n, isLowerHexDigit c = true := by
  induction n using Nat.strong_induction_on with
  | _ n ih =>
    match n with
    | 0 => intro c hc; simp [natToHexRev] at hc
    | m + 1 =>
      intro c hc
      rw [natToHexRev] at hc
      rcases List.mem_cons.mp hc with h | h
      · subst h; exact hexDigitChar_isLowerHex (Nat.mod_lt _ (by norm_num))
      · exact ih ((m + 1) / 16) (Nat.div_lt_self (Nat.succ_pos m) (by norm_num)) c h

theorem natToHex_mem_lowerHex {n : Nat} :
    ∀ c ∈ natToHex n, isLowerHexDigit c = true := by
  unfold natToHex
  split
  · intro c hc; simp at hc; subst hc; decide
  · intro c hc
    exact natToHexRev_mem_lowerHex c (List.mem_reverse.mp hc)

theorem natToHexRev_length_le {k : Nat} :
    ∀ n, n < 16 ^ k → (natToHexRev n).length ≤ k := by
  induction k with
  | zero =>
    intro n hn
    interval_cases n
    simp [natToHexRev]
  | succ k ih =>
    intro n hn
    match n with
    | 0 => simp [natToHexRev]
    | m + 1 =>
      rw [natToHexRev]
      simp only [List.length_cons, Nat.add_le_add_iff_right]
      exact ih _ (Nat.div_lt_of_lt_mul (by rw [pow_succ] at hn; omega))

theorem natToHex_length_le {k : Nat} (hk : 1 ≤ k) :
    ∀ n, n < 16 ^ k → (natToHex n).length ≤ k := by
  intro n hn
  unfold natToHex
  split
  · simpa
  · rw [List.length_reverse]
    exact natToHexRev_length_le n hn

theorem foldl_natToHexRev (n acc : Nat) :
    List.foldl (fun a c => a * 16 + (hexCharVal c).getD 0) acc
        ((natToHexRev n).reverse) =
      acc * 16 ^ (natToHexRev n).length + n := by
  induction n using Nat.strong_induction_on generalizing acc with
  | _ n ih =>
    match n with
    | 0 => simp [natToHexRev]
    | m + 1 =>
      rw [natToHexRev]
      simp only [List.reverse_cons, List.foldl_append, List.foldl_cons,
        List.foldl_nil, List.length_cons]
      rw [ih ((m + 1) / 16) (Nat.div_lt_self (Nat.succ_pos m) (by norm_num)) acc]
      rw [hexCharVal_hexDigitChar (Nat.mod_lt _ (by norm_num))]
      simp only [Option.getD_some]
      rw [pow_succ]
      have := Nat.div_add_mod (m + 1) 16
      ring_nf
      omega

theorem parseHexDigits_natToHex (n : Nat) :
    parseHexDigits (natToHex n) = some n := by
  by_cases h0 : n = 0
  · subst h0; decide
  · have hx : natToHex n = (natToHexRev n).reverse := by
      unfold natToHex; rw [if_neg h0]
    have hne : natToHexRev n ≠ [] := by
      match n, h0 with
      | m + 1, _ => rw [natToHexRev]; exact List.cons_ne_nil _ _
    have hemp : ((natToHexRev n).reverse).isEmpty = false := by
      cases hrev : (natToHexRev n).reverse with
      | nil => exact absurd (by simpa using hrev) hne
      | cons a l => rfl
    have hall : ((natToHexRev n).reverse).all
        (fun c => (hexCharVal c).isSome) = true := by
      rw [List.all_eq_true]
      intro c hc
      exact lowerHex_hexCharVal_isSome
        (natToHexRev_mem_lowerHex c (List.mem_reverse.mp hc))
    rw [hx]
    unfold parseHexDigits
    rw [hemp, hall]
    simp only [Bool.false_eq_true, if_false, if_true]
    rw [foldl_natToHexRev]
    simp

theorem natToHex_ne_nil (n : Nat) : natToHex n ≠ [] := by
  unfold natToHex
  split
  · exact List.cons_ne_nil _ _
  · rename_i h
    match n, h with
    | m + 1, _ =>
      rw [natToHexRev]
      simp

theorem dropWhile_eq_self_of_all {α} (p : α → Bool) :
    ∀ l : List α, (∀ c ∈ l, p c = false) → l.dropWhile p = l
  | [], _ => rfl
  | c :: l, h => by
    have hc := h c (List.mem_cons_self c l)
    simp [List.dropWhile, hc]

theorem dropWhile_replicate_append {α} {p : α → Bool} {a : α}
    (hpa : p a = true) (m : Nat) (l : List α) :
    (List.replicate m a ++ l).dropWhile p = l.dropWhile p := by
  induction m with
  | zero => simp
  | succ k ih => simp [List.replicate_succ, List.dropWhile, hpa, ih]

/-- Decode-after-encode for the UUID extension: the space-padded
lowercase-hex string produced by the format spec 32x is accepted by
`uuid.UUID`, because `int(s, 16)` tolerates the leading whitespace, and
yields the original 128-bit integer. -/
theorem pyUUIDFromHex_format32x {n : Nat} (h : n < 2 ^ 128) :
    pyUUIDFromHex (format32x n) = some ⟨n, h⟩ := by
  have h16 : n < 16 ^ 32 := by
    have he : (16 : ℕ) ^ 32 = 2 ^ 128 := by norm_num
    rw [he]; exact h
  have hLle : (natToHex n).length ≤ 32 := natToHex_length_le (by norm_num) n h16
  have hmemOK : ∀ c ∈ List.replicate (32 - (natToHex n).length) ' ' ++ natToHex n,
      c = ' ' ∨ isLowerHexDigit c = true := by
    intro c hc
    rcases List.mem_append.mp hc with hc | hc
    · exact Or.inl (List.eq_of_mem_replicate hc)
    · exact Or.inr (natToHex_mem_lowerHex c hc)
  have hnb : ∀ c ∈ List.replicate (32 - (natToHex n).length) ' ' ++ natToHex n,
      isBraceChar c = false := by
    intro c hc
    rcases hmemOK c hc with hc' | hc'
    · subst hc'; decide
    · exact lowerHex_not_brace hc'
  have hdsh : ∀ c ∈ List.replicate (32 - (natToHex n).length) ' ' ++ natToHex n,
      (decide (c ≠ '-')) = true := by
    intro c hc
    rcases hmemOK c hc with hc' | hc'
    · subst hc'; decide
    · simpa using lowerHex_ne_dash hc'
  have hdata : (format32x n).data =
      List.replicate (32 - (natToHex n).length) ' ' ++ natToHex n := rfl
  have hwds : ∀ c ∈ natToHex n, (fun c : Char => c.isWhitespace) c = false :=
    fun c hc => lowerHex_not_whitespace (natToHex_mem_lowerHex c hc)
  obtain ⟨d, rest, hcons⟩ : ∃ d rest, natToHex n = d :: rest := by
    cases hx : natToHex n with
    | nil => exact absurd hx (natToHex_ne_nil n)
    | cons d rest => exact ⟨d, rest, rfl⟩
  have hdhex : isLowerHexDigit d = true := by
    exact natToHex_mem_lowerHex d (by rw [hcons]; exact List.mem_cons_self _ _)
  have hpy : pyIntOfHex
      (List.replicate (32 - (natToHex n).length) ' ' ++ natToHex n) =
      some (Int.ofNat n) := by
    unfold pyIntOfHex
    rw [dropWhile_replicate_append (by decide), dropWhile_eq_self_of_all _ _ hwds]
    rw [dropWhile_eq_self_of_all _ _
      (fun c hc => hwds c (List.mem_reverse.mp hc))]
    rw [List.reverse_reverse]
    rw [if_neg (by
      rw [hcons]
      simp only [List.head?_cons, Option.some.injEq]
      exact fun he => lowerHex_ne_plus hdhex he)]
    rw [if_neg (by
      rw [hcons]
      simp only [List.head?_cons, Option.some.injEq]
      exact fun he => lowerHex_ne_dash hdhex he)]
    rw [parseHexDigits_natToHex]
    rfl
  unfold pyUUIDFromHex
  rw [hdata]
  rw [dropWhile_eq_self_of_all _ _ hnb]
  rw [dropWhile_eq_self_of_all _ _ (fun c hc => hnb c (List.mem_reverse.mp hc))]
  simp only [List.reverse_reverse, List.filter_eq_self.mpr hdsh, hpy,
    List.length_append, List.length_replicate]
  rw [if_pos (by omega)]
  split
  · simp only [Option.some.injEq]
    apply Fin.ext
    simp
  · rename_i hneg
    refine absurd ⟨?_, ?_⟩ hneg
    · rw [Int.ofNat_eq_natCast]; exact_mod_cast Nat.zero_le n
    · rw [Int.ofNat_eq_natCast]; exact_mod_cast h

/-! ### Decode-after-encode for the codec -/

theorem lookup_none_of_containsKey_false {k : String} {kvs : PyMap}
    (h : kvs.containsKey k = false) : kvs.lookup k = none := by
  unfold PyMap.containsKey at h
  cases hl : kvs.lookup k with
  | none => rfl
  | some v => rw [hl] at h; simp at h

mutual

theorem rt_val : ∀ v : PyVal, reservedFree v = true →
    decodeTree (encodeTree v) = .ok v
  | .vint _, _ => rfl
  | .vfloat _, _ => rfl
  | .vbool _, _ => rfl
  | .vstr _, _ => rfl
  | .vbytes _, _ => rfl
  | .vnone, _ => rfl
  | .vdate t, _ => by
    simp [encodeTree, encode_vartype, decodeTree, decodeTreeM, decode_vartype,
      PyMap.lookup]
  | .vuuid u, _ => by
    show decodeTree (.vmap (.cons "__uuid__" (.vstr (format32x u.val)) .nil)) =
      .ok (.vuuid u)
    have hstep : decodeTreeM (.cons "__uuid__" (.vstr (format32x u.val)) .nil) =
        .ok (.cons "__uuid__" (.vstr (format32x u.val)) .nil) := rfl
    simp only [decodeTree, hstep]
    unfold decode_vartype
    have hd : PyMap.lookup "__date__"
        (.cons "__uuid__" (.vstr (format32x u.val)) .nil) = none := by
      simp [PyMap.lookup]
    have hu : PyMap.lookup "__uuid__"
        (.cons "__uuid__" (.vstr (format32x u.val)) .nil) =
        some (.vstr (format32x u.val)) := by
      simp [PyMap.lookup]
    rw [hd, hu]
    simp [pyUUIDFromHex_format32x u.isLt]
  | .vlist xs, h => by
    have hl := rt_list xs (by simpa [reservedFree] using h)
    simp [encodeTree, decodeTree, hl]
  | .vmap kvs, h => by
    simp only [reservedFree, Bool.and_eq_true, Bool.not_eq_true'] at h
    obtain ⟨⟨h1, h2⟩, h3⟩ := h
    have hm := rt_map kvs h3
    simp only [encodeTree, decodeTree]
    rw [hm]
    simp [decode_vartype, lookup_none_of_containsKey_false h1,
      lookup_none_of_containsKey_false h2]

theorem rt_list : ∀ xs : PyList, reservedFreeL xs = true →
    decodeTreeL (encodeTreeL xs) = .ok xs
  | .nil, _ => rfl
  | .cons hd tl, h => by
    simp only [reservedFreeL, Bool.and_eq_true] at h
    have h1 := rt_val hd h.1
    have h2 := rt_list tl h.2
    simp [encodeTreeL, decodeTreeL, h1, h2]

theorem rt_map : ∀ kvs : PyMap, reservedFreeM kvs = true →
    decodeTreeM (encodeTreeM kvs) = .ok kvs
  | .nil, _ => rfl
  | .cons k v tl, h => by
    simp only [reservedFreeM, Bool.and_eq_true] at h
    have h1 := rt_val v h.1
    have h2 := rt_map tl h.2
    simp [encodeTreeM, decodeTreeM, h1, h2]

end

/-! ### Message schema validation

The running server (`src/exprec/server/protocol.py`) imports
`validate_message`/`make_message` from `exprec/common/messages.py`, a file
that is not present under `src/` (only its callers and its tests are).
The validation mechanism below follows `src/exprec/messages.py`
(`validate_message`: read the type and payload entries of the message
map, look the type up in the payload-schema table, validate the payload
against the schema, return the pair unchanged; `KeyError` and
`SchemaError` become `InvalidMessageError`).  The schema table itself is modelled from the
specification, section 4.2. -/

/-- Errors arising from `validate_message`: `InvalidMessageError`
(raised on `KeyError`/`SchemaError`), or an uncaught `TypeError` when the
message is not a map at all. -/
inductive MsgErr where
  | invalidMessage
  | typeErr
  deriving DecidableEq, Repr

/-- Payload values admitted for a `record` variable: numbers and
booleans. -/
def isScalarVal : PyVal → Bool
  | .vint _ => true
  | .vfloat _ => true
  | .vbool _ => true
  | _ => false

/-- String test for metadata values. -/
def isStrVal : PyVal → Bool
  | .vstr _ => true
  | _ => false

/-- Integer test for the version payload fields. -/
def isIntVal : PyVal → Bool
  | .vint _ => true
  | _ => false

/-- Boolean test for the status `success` field. -/
def isBoolVal : PyVal → Bool
  | .vbool _ => true
  | _ => false

/-- Timestamp test for the record `timestamp` field. -/
def isTimestampVal : PyVal → Bool
  | .vdate _ => true
  | _ => false

/-- UUID test for the welcome `instance_id` field. -/
def isUUIDVal : PyVal → Bool
  | .vuuid _ => true
  | _ => false

/-- Modelled from the spec: entry check of the `version` payload schema
`\x7bmajor: int, minor: int\x7d` (strict: no other keys). -/
def validVersionEntry (k : String) (v : PyVal) : Bool :=
  if k = "major" then isIntVal v
  else if k = "minor" then isIntVal v
  else false

/-- Modelled from the spec: entry check of the `record` payload schema
`\x7btimestamp: Timestamp, variables: \x7b<name>: <number|bool>\x7d\x7d`
(strict: no other keys). -/
def validRecordEntry (k : String) (v : PyVal) : Bool :=
  if k = "timestamp" then isTimestampVal v
  else if k = "variables" then
    match v with
    | .vmap vars => vars.allEntries (fun _ w => isScalarVal w)
    | _ => false
  else false

/-- Modelled from the spec: entry check of the `status` payload schema
`\x7bsuccess: bool, info?: any, error?: any\x7d`. -/
def validStatusEntry (k : String) (v : PyVal) : Bool :=
  if k = "success" then isBoolVal v
  else if k = "info" then true
  else if k = "error" then true
  else false

/-- Modelled from the spec: the payload-schema table of
`exprec/common/messages.py` (absent from `src/`), per specification
section 4.2.  `none` models a `KeyError` on an unknown message type;
`some b` tells whether the payload matches the schema of the type. -/
def msgPayloadSchemas : String → PyVal → Option Bool
  | "version", p =>
      some (match p with
        | .vmap kvs =>
            kvs.containsKey "major" && kvs.containsKey "minor" &&
              kvs.allEntries validVersionEntry
        | _ => false)
  | "welcome", p =>
      some (match p with
        | .vmap kvs =>
            kvs.containsKey "instance_id" &&
              kvs.allEntries (fun k v => k = "instance_id" && isUUIDVal v)
        | _ => false)
  | "metadata", p =>
      some (match p with
        | .vmap kvs => kvs.allEntries (fun _ v => isStrVal v)
        | _ => false)
  | "record", p =>
      some (match p with
        | .vmap kvs =>
            kvs.containsKey "timestamp" && kvs.containsKey "variables" &&
              kvs.allEntries validRecordEntry
        | _ => false)
  | "status", p =>
      some (match p with
        | .vmap kvs =>
            kvs.containsKey "success" && kvs.allEntries validStatusEntry &&
              !(kvs.containsKey "info" && kvs.containsKey "error")
        | _ => false)
  | "finish", p =>
      some (match p with
        | .vnone => true
        | _ => false)
  | _, _ => none

/-- The `validate_message` mechanism of `src/exprec/messages.py`: read
the type and payload entries of the message map (a missing key is a
`KeyError`), look the type up in the schema table, validate, and return
the pair of type and payload unchanged on success. -/
def validate_message (msg : PyVal) : Except MsgErr (String × PyVal) :=
  match msg with
  | .vmap kvs =>
      match kvs.lookup "type" with
      | some (.vstr mtype) =>
          match kvs.lookup "payload" with
          | some payload =>
              match msgPayloadSchemas mtype payload with
              | some true => .ok (mtype, payload)
              | some false => .error .invalidMessage
              | none => .error .invalidMessage
          | none => .error .invalidMessage
      | some _ => .error .invalidMessage
      | none => .error .invalidMessage
  | _ => .error .typeErr

/-- The message dictionary with the type and payload entries, as built
by `make_message` after validation. -/
def mkMessage (t : String) (p : PyVal) : PyVal :=
  .vmap (.cons "type" (.vstr t) (.cons "payload" p .nil))

/-- The `make_message` of `src/exprec/messages.py`: validate, then return the
message dictionary. -/
def make_message (t : String) (p : PyVal) : Except MsgErr PyVal :=
  match validate_message (mkMessage t p) with
  | .ok _ => .ok (mkMessage t p)
  | .error e => .error e

/-! ### The buffered experiment interface (`src/exprec/exp_interface.py`)

`BufferedExperimentInterface` and its `_FlushThread` are modelled as one
state.  Wall-clock timestamps written into rows (`datetime.now()`) are
values of a logical clock that ticks at every call, i.e. the wall clock
is assumed monotone.  Database-generated UUID keys are modelled by list
positions: an `ExperimentInstance` id is the index of its row in
`experiments`, an `InstanceVariable` id is the index of its row in
`variables` (the `_var_memo` dictionary of `_FlushThread` mirrors the
variables table, so a single list serves as both).  The worker thread is
modelled synchronously: `queue` holds the chunks handed over and not yet
committed; draining it runs `_flush_to_db` on each chunk in FIFO order,
which is the order the worker commits them in. -/

/-- A buffered variable sample (`VarUpdate` in the source). -/
structure VarUpdate where
  timestamp : ℚ
  name : String
  value : ℚ
  exp_id : Nat
  deriving DecidableEq, Repr

/-- Modelled from the spec: an `ExperimentInstance` row with its `start`
timestamp (set on create) and nullable `end` timestamp (set on finish).
The current model lives in `exprec/server/models.py`, absent from
`src/`; the older snapshot `src/exprec/models.py` has only a creation
timestamp column, while `finish_experiment_instance` in
`src/exprec/exp_interface.py` and the tests rely on the `end` column. -/
structure ExperimentRow where
  start : Nat
  end_ : Option Nat
  deriving DecidableEq, Repr

/-- An `ExperimentMetadata` row (`src/exprec/models.py`): primary key
(`instance_id`, `label`), payload `value`. -/
structure MetadataRow where
  instance_id : Nat
  label : String
  value : String
  deriving DecidableEq, Repr

/-- A `VariableRecord` row (`src/exprec/models.py`). -/
structure RecordRow where
  variable_id : Nat
  timestamp : ℚ
  value : ℚ
  deriving DecidableEq, Repr

/-- State of `BufferedExperimentInterface` together with its store and
its `_FlushThread`. -/
structure IfaceState where
  clock : Nat
  experiments : List ExperimentRow
  metadata : List MetadataRow
  variables_ : List (Nat × String)
  records : List RecordRow
  buf : List VarUpdate
  buf_size : Nat
  queue : List (List VarUpdate)
  shutdown : Bool
  def_metadata : List (String × String)
  deriving DecidableEq, Repr

/-- Error raised by `_FlushThread.push_records` after shutdown
(a RuntimeError saying the thread is shut down). -/
inductive WriterErr where
  | threadShutDown
  deriving DecidableEq, Repr

/-- Error of `finish_experiment_instance` on an unknown id:
`.first()` returns `None` and the attribute assignment raises
`AttributeError`. -/
inductive PyRunErr where
  | noneTypeAttr
  deriving DecidableEq, Repr

/-- A fresh interface over an empty store
(`BufferedExperimentInterface.__init__`). -/
def initState (buf_size : Nat) (def_metadata : List (String × String)) :
    IfaceState :=
  { clock := 0, experiments := [], metadata := [], variables_ := [],
    records := [], buf := [], buf_size := buf_size, queue := [],
    shutdown := false, def_metadata := def_metadata }

/-- The `_FlushThread.push_records`: refuse after shutdown, otherwise enqueue
the chunk. -/
def push_records (s : IfaceState) (chunk : List VarUpdate) :
    Except WriterErr IfaceState :=
  if s.shutdown then .error .threadShutDown
  else .ok { s with queue := s.queue ++ [chunk] }

/-- Key equality of two metadata rows (the composite primary key
(`instance_id`, `label`)). -/
def metaKeyEq (a b : MetadataRow) : Bool :=
  a.instance_id == b.instance_id && a.label == b.label

/-- The `session.merge` on an `ExperimentMetadata` row: update the `value` of
the row with the same primary key if present, insert otherwise. -/
def mergeMetadataRow (tbl : List MetadataRow) (row : MetadataRow) :
    List MetadataRow :=
  if tbl.any (fun r => metaKeyEq r row) then
    tbl.map (fun r => if metaKeyEq r row then { r with value := row.value } else r)
  else tbl ++ [row]

/-- The `BufferedExperimentInterface.add_metadata`: merge one row per pair
(pairs in the keyword-argument order of the call). -/
def add_metadata (s : IfaceState) (experiment_id : Nat)
    (pairs : List (String × String)) : IfaceState :=
  { s with metadata :=
      (pairs.foldl
        (fun tbl kv => mergeMetadataRow tbl ⟨experiment_id, kv.1, kv.2⟩)
        s.metadata) }

/-- The `BufferedExperimentInterface.new_experiment_instance`: insert a row
with `start = now()`, then upsert the default metadata for the new id. -/
def new_experiment_instance (s : IfaceState) : Nat × IfaceState :=
  let exp_id := s.experiments.length
  let s1 := { s with experiments := s.experiments ++ [⟨s.clock, none⟩],
                     clock := s.clock + 1 }
  (exp_id, add_metadata s1 exp_id s.def_metadata)

/-- The `BufferedExperimentInterface.finish_experiment_instance`: look the
row up and set `end = now()`. -/
def finish_experiment_instance (s : IfaceState) (exp_id : Nat) :
    Except PyRunErr IfaceState :=
  match s.experiments.get? exp_id with
  | none => .error .noneTypeAttr
  | some row =>
      .ok { s with
        experiments := s.experiments.set exp_id { row with end_ := some s.clock },
        clock := s.clock + 1 }

/-- Variable resolution of `_FlushThread._flush_to_db`: the memo/table
lookup by (`exp_id`, `name`); the returned id is the row position. -/
def findVariable : List (Nat × String) → Nat → String → Option Nat
  | [], _, _ => none
  | en :: rest, exp_id, name =>
      if en.1 = exp_id ∧ en.2 = name then some 0
      else (findVariable rest exp_id name).map (· + 1)

/-- Processing of one sample inside `_FlushThread._flush_to_db`: resolve
the variable id through the memo (creating the variable row on a miss)
and append one record row. -/
def flushStep (st : IfaceState) (u : VarUpdate) : IfaceState :=
  match findVariable st.variables_ u.exp_id u.name with
  | some var_id =>
      { st with records := st.records ++ [⟨var_id, u.timestamp, u.value⟩] }
  | none =>
      let var_id := st.variables_.length
      { st with variables_ := st.variables_ ++ [(u.exp_id, u.name)],
                records := st.records ++ [⟨var_id, u.timestamp, u.value⟩] }

/-- The `_FlushThread._flush_to_db` on one chunk: resolve (or create) the
variable of each sample in arrival order and append one record row per
sample; the whole chunk is committed together. -/
def flushChunk (s : IfaceState) (chunk : List VarUpdate) : IfaceState :=
  chunk.foldl flushStep s

/-- The worker loop of `_FlushThread.run` processing everything queued
(`wait_for_flush` returns when this is done): commit each queued chunk in
FIFO order. -/
def drainQueue (s : IfaceState) : IfaceState :=
  { (s.queue.foldl flushChunk s) with queue := [] }

/-- The `BufferedExperimentInterface.flush` (non-blocking): snapshot the
staging buffer, clear it, then hand the snapshot to the worker.  The
buffer is cleared before `push_records` is called, exactly as in the
source. -/
def flush (s : IfaceState) : Except WriterErr IfaceState :=
  push_records { s with buf := [] } s.buf

/-- The `BufferedExperimentInterface.record_variables`: stage one sample per
pair, then flush if the staging buffer reached `buf_size`. -/
def record_variables (s : IfaceState) (experiment_id : Nat) (timestamp : ℚ)
    (pairs : List (String × ℚ)) : Except WriterErr IfaceState :=
  let s' := { s with
    buf := s.buf ++ pairs.map (fun kv => ⟨timestamp, kv.1, kv.2, experiment_id⟩) }
  if s'.buf_size ≤ s'.buf.length then flush s' else .ok s'

/-- The `BufferedExperimentInterface.close`: `flush(blocking=True)` (hand off
the partial chunk and wait for the worker to commit everything queued),
then `join` the worker (set the shutdown flag, wait for the queue to
drain, join). -/
def close (s : IfaceState) : Except WriterErr IfaceState :=
  match flush s with
  | .error e => .error e
  | .ok s1 =>
      let s2 := drainQueue s1
      .ok { drainQueue s2 with shutdown := true }

/-- Modelled from the spec: `export_records` of the store, section 4.3 —
one exported row `(experiment, timestamp, variable, value)` per record,
joining each record to its variable row. -/
def export_records (s : IfaceState) : List (Nat × ℚ × String × ℚ) :=
  s.records.filterMap
    (fun r => (s.variables_.get? r.variable_id).map
      (fun en => (en.1, r.timestamp, en.2, r.value)))

/-- States reachable through the public operations of
`BufferedExperimentInterface`. -/
inductive Reachable : IfaceState → Prop where
  | init (bs : Nat) (dm : List (String × String)) : Reachable (initState bs dm)
  | newExp {s : IfaceState} : Reachable s →
      Reachable (new_experiment_instance s).2
  | addMeta {s : IfaceState} (i : Nat) (ps : List (String × String)) :
      Reachable s → Reachable (add_metadata s i ps)
  | finish {s s' : IfaceState} (i : Nat) : Reachable s →
      finish_experiment_instance s i = .ok s' → Reachable s'
  | record {s s' : IfaceState} (i : Nat) (t : ℚ) (ps : List (String × ℚ)) :
      Reachable s → record_variables s i t ps = .ok s' → Reachable s'
  | flushOp {s s' : IfaceState} : Reachable s → flush s = .ok s' → Reachable s'
  | drain {s : IfaceState} : Reachable s → Reachable (drainQueue s)
  | closeOp {s s' : IfaceState} : Reachable s → close s = .ok s' → Reachable s'

/-! ### The handshake (`src/exprec/server/protocol.py`)

`SingleExperimentServer` arms a deferred chain
`validate_message → wait_for_version → errback` for the first message of
a connection.  `wait_for_version` is guarded by
the version message-type guard; a validation failure, an unexpected
type, or an `IncompatibleVersionException` all reach the errback, which
closes the connection without sending anything.  The peer-address
metadata string (already lowercased) is passed in as `address`. -/

/-- Protocol version of the server (`SingleExperimentServer.version_major`). -/
def version_major : Int := 1

/-- Outcome of handling one inbound message: the interface state
afterwards, the messages written to the transport (in order), and
whether the connection was closed. -/
structure HandshakeResult where
  iface : IfaceState
  sent : List PyVal
  closed : Bool

/-- The `wait_for_version` with its surrounding deferred chain: on a valid
`version` message with matching major, create the experiment instance,
upsert the `address` metadata, and send `welcome`; otherwise close the
connection having sent nothing. -/
def wait_for_version (iface : IfaceState) (address : String) (msg : PyVal) :
    HandshakeResult :=
  match validate_message msg with
  | .error _ => ⟨iface, [], true⟩
  | .ok (mtype, payload) =>
      if mtype = "version" then
        match payload with
        | .vmap kvs =>
            match kvs.lookup "major" with
            | some (.vint v_major) =>
                if version_major ≠ v_major then ⟨iface, [], true⟩
                else
                  let res := new_experiment_instance iface
                  let if2 := add_metadata res.2 res.1 [("address", address)]
                  ⟨if2,
                    [mkMessage "welcome"
                      (.vmap (.cons "instance_id"
                        (.vuuid ⟨res.1 % 2 ^ 128, Nat.mod_lt _ (by norm_num)⟩)
                        .nil))],
                    false⟩
            | _ => ⟨iface, [], true⟩
        | _ => ⟨iface, [], true⟩
      else ⟨iface, [], true⟩

/-- A `version` message as a client sends it. -/
def versionMsg (major minor : Int) : PyVal :=
  mkMessage "version"
    (.vmap (.cons "major" (.vint major) (.cons "minor" (.vint minor) .nil)))

/-! ### Which fields each pipeline operation leaves untouched -/

theorem flushStep_const (st : IfaceState) (u : VarUpdate) :
    (flushStep st u).experiments = st.experiments ∧
    (flushStep st u).clock = st.clock ∧
    (flushStep st u).metadata = st.metadata ∧
    (flushStep st u).buf = st.buf ∧
    (flushStep st u).buf_size = st.buf_size ∧
    (flushStep st u).queue = st.queue ∧
    (flushStep st u).shutdown = st.shutdown := by
  unfold flushStep
  cases h : findVariable st.variables_ u.exp_id u.name <;> simp

theorem foldl_flushStep_const (chunk : List VarUpdate) :
    ∀ st : IfaceState,
    (chunk.foldl flushStep st).experiments = st.experiments ∧
    (chunk.foldl flushStep st).clock = st.clock ∧
    (chunk.foldl flushStep st).metadata = st.metadata ∧
    (chunk.foldl flushStep st).buf = st.buf ∧
    (chunk.foldl flushStep st).buf_size = st.buf_size ∧
    (chunk.foldl flushStep st).queue = st.queue ∧
    (chunk.foldl flushStep st).shutdown = st.shutdown := by
  induction chunk with
  | nil => intro st; simp
  | cons u rest ih =>
    intro st
    simp only [List.foldl_cons]
    obtain ⟨e1, e2, e3, e4, e5, e6, e7⟩ := ih (flushStep st u)
    obtain ⟨f1, f2, f3, f4, f5, f6, f7⟩ := flushStep_const st u
    exact ⟨e1.trans f1, e2.trans f2, e3.trans f3, e4.trans f4,
      e5.trans f5, e6.trans f6, e7.trans f7⟩

theorem foldl_flushChunk_const (chunks : List (List VarUpdate)) :
    ∀ st : IfaceState,
    (chunks.foldl flushChunk st).experiments = st.experiments ∧
    (chunks.foldl flushChunk st).clock = st.clock ∧
    (chunks.foldl flushChunk st).metadata = st.metadata ∧
    (chunks.foldl flushChunk st).buf = st.buf ∧
    (chunks.foldl flushChunk st).buf_size = st.buf_size ∧
    (chunks.foldl flushChunk st).shutdown = st.shutdown := by
  induction chunks with
  | nil => intro st; simp
  | cons c rest ih =>
    intro st
    simp only [List.foldl_cons]
    obtain ⟨e1, e2, e3, e4, e5, e6⟩ := ih (flushChunk st c)
    obtain ⟨f1, f2, f3, f4, f5, _, f7⟩ := foldl_flushStep_const c st
    exact ⟨e1.trans f1, e2.trans f2, e3.trans f3, e4.trans f4,
      e5.trans f5, e6.trans f7⟩

theorem drainQueue_const (s : IfaceState) :
    (drainQueue s).experiments = s.experiments ∧
    (drainQueue s).clock = s.clock ∧
    (drainQueue s).metadata = s.metadata ∧
    (drainQueue s).buf = s.buf ∧
    (drainQueue s).buf_size = s.buf_size ∧
    (drainQueue s).shutdown = s.shutdown := by
  unfold drainQueue
  obtain ⟨e1, e2, e3, e4, e5, e6⟩ := foldl_flushChunk_const s.queue s
  exact ⟨e1, e2, e3, e4, e5, e6⟩

theorem flush_ok_iff {s s' : IfaceState} :
    flush s = .ok s' ↔
      s.shutdown = false ∧
      s' = { s with buf := [], queue := s.queue ++ [s.buf] } := by
  unfold flush push_records
  by_cases h : s.shutdown <;> simp [h, eq_comm]

theorem record_variables_ok_fields {s s' : IfaceState} {i : Nat} {t : ℚ}
    {ps : List (String × ℚ)} (h : record_variables s i t ps = .ok s') :
    s'.experiments = s.experiments ∧ s'.clock = s.clock ∧
    s'.metadata = s.metadata ∧ s'.buf_size = s.buf_size ∧
    s'.shutdown = s.shutdown ∧ s'.variables_ = s.variables_ ∧
    s'.records = s.records := by
  unfold record_variables at h
  dsimp only at h
  split at h
  · rw [flush_ok_iff] at h
    rw [h.2]
    simp [h.1]
  · simp only [Except.ok.injEq] at h
    subst h
    simp

theorem close_ok_fields {s s' : IfaceState} (h : close s = .ok s') :
    s'.experiments = s.experiments ∧ s'.clock = s.clock ∧
    s'.metadata = s.metadata := by
  unfold close at h
  cases hf : flush s with
  | error e => rw [hf] at h; exact absurd h (by simp)
  | ok s1 =>
    rw [hf] at h
    simp only [Except.ok.injEq] at h
    subst h
    rw [flush_ok_iff] at hf
    obtain ⟨d1, d2, d3, _, _, _⟩ := drainQueue_const (drainQueue s1)
    obtain ⟨g1, g2, g3, _, _, _⟩ := drainQueue_const s1
    refine ⟨?_, ?_, ?_⟩
    · show (drainQueue (drainQueue s1)).experiments = s.experiments
      rw [d1, g1, hf.2]
    · show (drainQueue (drainQueue s1)).clock = s.clock
      rw [d2, g2, hf.2]
    · show (drainQueue (drainQueue s1)).metadata = s.metadata
      rw [d3, g3, hf.2]

/-! ### The experiment lifecycle invariant -/

theorem reachable_start_lt_clock {s : IfaceState} (hs : Reachable s) :
    ∀ row ∈ s.experiments, row.start < s.clock := by
  induction hs with
  | init bs dm => intro row hr; simp [initState] at hr
  | newExp _ ih =>
    intro row hr
    simp only [new_experiment_instance, add_metadata] at hr ⊢
    rcases List.mem_append.mp hr with h | h
    · exact Nat.lt_succ_of_lt (ih row h)
    · simp only [List.mem_singleton] at h
      subst h
      exact Nat.lt_succ_self _
  | addMeta i ps _ ih =>
    intro row hr
    simp only [add_metadata] at hr ⊢
    exact ih row hr
  | @finish s₀ s₁ i _ heq ih =>
    intro row hr
    unfold finish_experiment_instance at heq
    cases hx : s₀.experiments.get? i with
    | none => rw [hx] at heq; exact absurd heq (by simp)
    | some row0 =>
      rw [hx] at heq
      simp only [Except.ok.injEq] at heq
      subst heq
      simp only at hr ⊢
      rcases List.mem_or_eq_of_mem_set hr with h | h
      · exact Nat.lt_succ_of_lt (ih row h)
      · subst h
        exact Nat.lt_succ_of_lt (ih row0 (List.get?_mem hx))
  | record i t ps _ heq ih =>
    intro row hr
    obtain ⟨e1, e2, _, _, _, _, _⟩ := record_variables_ok_fields heq
    rw [e1] at hr
    rw [e2]
    exact ih row hr
  | flushOp _ heq ih =>
    intro row hr
    rw [flush_ok_iff] at heq
    rw [heq.2] at hr ⊢
    exact ih row hr
  | drain _ ih =>
    intro row hr
    obtain ⟨e1, e2, _, _, _, _⟩ := drainQueue_const _
    rw [e1] at hr
    rw [e2]
    exact ih row hr
  | closeOp _ heq ih =>
    intro row hr
    obtain ⟨e1, e2, _⟩ := close_ok_fields heq
    rw [e1] at hr
    rw [e2]
    exact ih row hr

/-! ### Claim C1 -/

/-- C1: for every experiment id known to the interface (created via
`new_experiment_instance`), once `finish_experiment_instance(id)` returns
successfully, the persisted `ExperimentInstance` row for that id carries
a non-null `end` timestamp that is not earlier than its `start`
timestamp. -/
theorem C1_finish_sets_end_not_before_start {s s' : IfaceState}
    (hs : Reachable s) (i : Nat)
    (h : finish_experiment_instance s i = .ok s') :
    ∃ row, s'.experiments.get? i = some row ∧
      ∃ e, row.end_ = some e ∧ row.start ≤ e := by
  unfold finish_experiment_instance at h
  cases hx : s.experiments.get? i with
  | none => rw [hx] at h; exact absurd h (by simp)
  | some row0 =>
    rw [hx] at h
    simp only [Except.ok.injEq] at h
    subst h
    obtain ⟨hlt, -⟩ := List.get?_eq_some.mp hx
    refine ⟨{ row0 with end_ := some s.clock }, ?_, s.clock, rfl, ?_⟩
    · simp only
      rw [List.get?_eq_getElem?, List.getElem?_set_eq_of_lt _ hlt]
    · exact Nat.le_of_lt (reachable_start_lt_clock hs row0 (List.get?_mem hx))

/-- Witness for C1 at a concrete run: create one experiment on a fresh
interface and finish it. -/
theorem C1_witness :
    ∃ row, (⟨2, [⟨0, some 1⟩], [], [], [], [], 100, [], false, []⟩ :
        IfaceState).experiments.get? 0 = some row ∧
      ∃ e, row.end_ = some e ∧ row.start ≤ e :=
  C1_finish_sets_end_not_before_start
    (Reachable.newExp (Reachable.init 100 [])) 0 rfl

/-! ### Claim C5 -/

/-- The interface state right after `close()` on a fresh interface. -/
def c5Closed : IfaceState := { initState 100 [] with shutdown := true }

/-- Counterexample to C5 as stated: after `close()`, a `record_variables`
call that leaves the staging buffer below `buf_size` returns normally and
silently stages the sample — it does not fail with the writer-shut-down
error. -/
theorem C5_counterexample :
    close (initState 100 []) = .ok c5Closed ∧
    record_variables c5Closed 0 0 [("x", 1)] =
      .ok { c5Closed with buf := [⟨0, "x", 1, 0⟩] } ∧
    record_variables c5Closed 0 0 [("x", 1)] ≠ .error .threadShutDown := by
  refine ⟨rfl, rfl, fun h => ?_⟩
  have h2 : (Except.ok { c5Closed with buf := [⟨0, "x", 1, 0⟩] } :
      Except WriterErr IfaceState) = .error .threadShutDown :=
    (rfl : record_variables c5Closed 0 0 [("x", 1)] =
      .ok { c5Closed with buf := [⟨0, "x", 1, 0⟩] }).symm.trans h
  exact Except.noConfusion h2

/-- C5 amended: after `close()` has set the shutdown flag, a
`record_variables` call raises the writer-shut-down error exactly when
the staged samples reach `buf_size` and trigger a flush; below the
threshold the call silently appends the samples to the staging buffer
and returns without error. -/
theorem C5_record_after_close_fails_only_on_flush (s : IfaceState)
    (hsd : s.shutdown = true) (i : Nat) (t : ℚ)
    (ps : List (String × ℚ)) :
    (s.buf_size ≤ s.buf.length + ps.length →
       record_variables s i t ps = .error .threadShutDown) ∧
    (s.buf.length + ps.length < s.buf_size →
       record_variables s i t ps =
         .ok { s with buf := s.buf ++ ps.map (fun kv => ⟨t, kv.1, kv.2, i⟩) }) := by
  constructor <;> intro hlen <;>
    unfold record_variables flush push_records <;> dsimp only
  · rw [if_pos (by simp; omega)]
    simp [hsd]
  · rw [if_neg (by simp; omega)]

/-- Witness for C5: on a concrete closed state with `buf_size = 100`, a
one-sample call is below the threshold and is accepted; on a closed
state with `buf_size = 1`, a one-sample call reaches the threshold and
fails. -/
theorem C5_witness :
    record_variables c5Closed 0 0 [("x", 1)] =
      .ok { c5Closed with buf := [⟨0, "x", 1, 0⟩] } ∧
    record_variables ({ initState 1 [] with shutdown := true }) 0 0
        [("x", 1)] = .error .threadShutDown :=
  ⟨(C5_record_after_close_fails_only_on_flush c5Closed rfl 0 0
      [("x", 1)]).2 (by decide),
   (C5_record_after_close_fails_only_on_flush
      ({ initState 1 [] with shutdown := true }) rfl 0 0
      [("x", 1)]).1 (by decide)⟩

/-! ### Claim C6 -/

/-- The metadata rows with composite key (`id`, `k`). -/
def filterMetaKey (tbl : List MetadataRow) (id : Nat) (k : String) :
    List MetadataRow :=
  tbl.filter (fun r => r.instance_id == id && r.label == k)

/-- The flattened sequence of single-row metadata writes performed by a
sequence of `add_metadata` calls. -/
def metaWrites (calls : List (Nat × List (String × String))) :
    List MetadataRow :=
  calls.flatMap (fun c => c.2.map (fun kv => ⟨c.1, kv.1, kv.2⟩))

/-- The last value written for key (`id`, `k`) in a sequence of writes;
`none` when the key was never written. -/
def lastWrittenValue (ws : List MetadataRow) (id : Nat) (k : String) :
    Option String :=
  ((ws.filter (fun r => r.instance_id == id && r.label == k)).getLast?).map
    (·.value)

/-- A sequence of `add_metadata` calls against the interface. -/
def runMetaCalls (s : IfaceState)
    (calls : List (Nat × List (String × String))) : IfaceState :=
  calls.foldl (fun st c => add_metadata st c.1 c.2) s

/-- Key uniqueness of a metadata table: at most one row per composite
key. -/
def UniqueMeta (tbl : List MetadataRow) : Prop :=
  ∀ id k, (filterMetaKey tbl id k).length ≤ 1

theorem mergeMetadataRow_key_fields (r row : MetadataRow) :
    (if metaKeyEq r row then { r with value := row.value } else r).instance_id
        = r.instance_id ∧
    (if metaKeyEq r row then { r with value := row.value } else r).label
        = r.label := by
  split <;> simp

theorem metaKeyEq_eq_pred (row : MetadataRow) (r : MetadataRow) :
    metaKeyEq r row =
      (r.instance_id == row.instance_id && r.label == row.label) := rfl

theorem filterMetaKey_singleton_of_mem {tbl : List MetadataRow}
    {id : Nat} {k : String} (hu : UniqueMeta tbl) {r : MetadataRow}
    (hmem : r ∈ filterMetaKey tbl id k) :
    filterMetaKey tbl id k = [r] := by
  have hle := hu id k
  cases hf : filterMetaKey tbl id k with
  | nil => rw [hf] at hmem; simp at hmem
  | cons r0 rest =>
    rw [hf] at hle hmem
    simp only [List.length_cons] at hle
    have hrest : rest = [] := List.eq_nil_of_length_eq_zero (by omega)
    subst hrest
    simp only [List.mem_singleton] at hmem
    subst hmem
    rfl

theorem filterMetaKey_merge_of_key (tbl : List MetadataRow)
    (row : MetadataRow) (hu : UniqueMeta tbl) :
    filterMetaKey (mergeMetadataRow tbl row) row.instance_id row.label =
      [⟨row.instance_id, row.label, row.value⟩] := by
  unfold mergeMetadataRow
  split
  · rename_i hany
    unfold filterMetaKey
    rw [List.filter_map]
    have hcong : List.filter
        ((fun r : MetadataRow => r.instance_id == row.instance_id &&
          r.label == row.label) ∘
          (fun r => if metaKeyEq r row then { r with value := row.value } else r))
        tbl = filterMetaKey tbl row.instance_id row.label := by
      apply List.filter_congr
      intro r _
      simp only [Function.comp_apply]
      obtain ⟨h1, h2⟩ := mergeMetadataRow_key_fields r row
      rw [h1, h2]
    rw [hcong]
    obtain ⟨r0, hr0mem, hr0key⟩ := List.any_eq_true.mp hany
    have hr0filter : r0 ∈ filterMetaKey tbl row.instance_id row.label := by
      unfold filterMetaKey
      rw [List.mem_filter]
      exact ⟨hr0mem, by rw [← metaKeyEq_eq_pred]; exact hr0key⟩
    rw [filterMetaKey_singleton_of_mem hu hr0filter]
    simp only [List.map_cons, List.map_nil, List.cons.injEq, and_true]
    rw [if_pos hr0key]
    obtain ⟨hid, hk⟩ : r0.instance_id = row.instance_id ∧
        r0.label = row.label := by
      simp only [metaKeyEq, Bool.and_eq_true, beq_iff_eq] at hr0key
      exact hr0key
    cases r0
    simp_all
  · rename_i hany
    unfold filterMetaKey
    rw [List.filter_append]
    have h1 : List.filter (fun r : MetadataRow =>
        r.instance_id == row.instance_id && r.label == row.label) tbl = [] := by
      rw [List.filter_eq_nil_iff]
      intro r hr
      have := List.any_eq_false.mp (Bool.eq_false_iff.mpr hany) r hr
      rw [metaKeyEq_eq_pred] at this
      simpa using this
    rw [h1]
    have h2 : (row.instance_id == row.instance_id &&
        row.label == row.label) = true := by simp
    simp only [List.nil_append, List.filter_cons, h2, if_pos, List.filter_nil]

theorem filterMetaKey_merge_of_ne (tbl : List MetadataRow)
    (row : MetadataRow) (id : Nat) (k : String)
    (hne : (row.instance_id == id && row.label == k) = false) :
    filterMetaKey (mergeMetadataRow tbl row) id k =
      filterMetaKey tbl id k := by
  unfold mergeMetadataRow
  split
  · unfold filterMetaKey
    rw [List.filter_map]
    have hcong : List.filter
        ((fun r : MetadataRow => r.instance_id == id && r.label == k) ∘
          (fun r => if metaKeyEq r row then { r with value := row.value } else r))
        tbl = List.filter
          (fun r : MetadataRow => r.instance_id == id && r.label == k) tbl := by
      apply List.filter_congr
      intro r _
      simp only [Function.comp_apply]
      obtain ⟨h1, h2⟩ := mergeMetadataRow_key_fields r row
      rw [h1, h2]
    rw [hcong]
    have hid : ∀ r ∈ List.filter
        (fun r : MetadataRow => r.instance_id == id && r.label == k) tbl,
        (fun r : MetadataRow =>
          if metaKeyEq r row then { r with value := row.value } else r) r =
          (fun r : MetadataRow => r) r := by
      intro r hr
      rw [List.mem_filter] at hr
      by_cases hm : metaKeyEq r row = true
      · exfalso
        simp only [metaKeyEq, Bool.and_eq_true, beq_iff_eq] at hm
        simp only [Bool.and_eq_true, beq_iff_eq] at hr
        rw [← hm.1, ← hm.2] at hne
        rw [hr.2.1, hr.2.2] at hne
        simp at hne
      · simp only
        rw [if_neg hm]
    rw [List.map_congr_left hid, List.map_id']
  · unfold filterMetaKey
    rw [List.filter_append]
    simp [hne]

theorem mergeMetadataRow_unique {tbl : List MetadataRow} (row : MetadataRow)
    (hu : UniqueMeta tbl) : UniqueMeta (mergeMetadataRow tbl row) := by
  intro id k
  by_cases hk : (row.instance_id == id && row.label == k) = true
  · obtain ⟨hid, hlab⟩ : row.instance_id = id ∧ row.label = k := by
      simpa using hk
    subst hid; subst hlab
    rw [filterMetaKey_merge_of_key tbl row hu]
    simp
  · rw [filterMetaKey_merge_of_ne tbl row id k (Bool.eq_false_iff.mpr hk)]
    exact hu id k

theorem lastWrittenValue_cons (row : MetadataRow) (rest : List MetadataRow)
    (id : Nat) (k : String) :
    lastWrittenValue (row :: rest) id k =
      (match lastWrittenValue rest id k with
       | some v => some v
       | none =>
           if row.instance_id == id && row.label == k then some row.value
           else none) := by
  unfold lastWrittenValue
  rw [List.filter_cons]
  by_cases hp : (row.instance_id == id && row.label == k) = true
  · rw [if_pos hp]
    cases hf : List.filter
        (fun r : MetadataRow => r.instance_id == id && r.label == k) rest with
    | nil => simp [hf, hp]
    | cons b l =>
      rw [List.getLast?_cons_cons]
      cases hg : List.getLast? (b :: l) with
      | none => exact absurd hg (by simp)
      | some x => simp [hg]
  · rw [if_neg hp]
    cases hlast : (List.filter
        (fun r : MetadataRow => r.instance_id == id && r.label == k)
        rest).getLast? with
    | none => simp [hlast, hp]
    | some x => simp [hlast]

theorem foldl_merge_filter (id : Nat) (k : String) :
    ∀ (ws : List MetadataRow) (tbl : List MetadataRow), UniqueMeta tbl →
    filterMetaKey (ws.foldl mergeMetadataRow tbl) id k =
      (match lastWrittenValue ws id k with
       | some v => [⟨id, k, v⟩]
       | none => filterMetaKey tbl id k) := by
  intro ws
  induction ws with
  | nil => intro tbl _; rfl
  | cons row rest ih =>
    intro tbl hu
    rw [List.foldl_cons]
    rw [ih (mergeMetadataRow tbl row) (mergeMetadataRow_unique row hu)]
    rw [lastWrittenValue_cons]
    cases hlr : lastWrittenValue rest id k with
    | some v => rfl
    | none =>
      by_cases hp : (row.instance_id == id && row.label == k) = true
      · rw [if_pos hp]
        obtain ⟨hid, hlab⟩ : row.instance_id = id ∧ row.label = k := by
          simpa using hp
        subst hid; subst hlab
        rw [filterMetaKey_merge_of_key tbl row hu]
      · rw [if_neg hp,
          filterMetaKey_merge_of_ne tbl row id k (Bool.eq_false_iff.mpr hp)]

theorem runMetaCalls_metadata (calls : List (Nat × List (String × String))) :
    ∀ s : IfaceState, (runMetaCalls s calls).metadata =
      (metaWrites calls).foldl mergeMetadataRow s.metadata := by
  induction calls with
  | nil => intro s; rfl
  | cons c rest ih =>
    intro s
    have hstep : runMetaCalls s (c :: rest) =
        runMetaCalls (add_metadata s c.1 c.2) rest := rfl
    rw [hstep, ih (add_metadata s c.1 c.2)]
    have hw : metaWrites (c :: rest) =
        c.2.map (fun kv => ⟨c.1, kv.1, kv.2⟩) ++ metaWrites rest := by
      simp [metaWrites]
    rw [hw, List.foldl_append]
    congr 1
    simp [add_metadata, List.foldl_map]

/-- C6: after any sequence of `add_metadata` calls against a fresh
interface, for every instance id and label the metadata table holds at
most one row for that composite key, and when the key was written at all
the single row carries the last value written for it (upsert,
last-write-wins). -/
theorem C6_metadata_upsert_last_write_wins (bs : Nat)
    (dm : List (String × String))
    (calls : List (Nat × List (String × String))) (id : Nat) (k : String) :
    filterMetaKey (runMetaCalls (initState bs dm) calls).metadata id k =
      (match lastWrittenValue (metaWrites calls) id k with
       | some v => [⟨id, k, v⟩]
       | none => []) := by
  rw [runMetaCalls_metadata calls (initState bs dm)]
  have hbase : UniqueMeta (initState bs dm).metadata := by
    intro id k
    simp [initState, filterMetaKey]
  rw [foldl_merge_filter id k (metaWrites calls) (initState bs dm).metadata
    hbase]
  rfl

/-! ### Claim C7 -/

theorem findVariable_get {e : Nat} {n : String} :
    ∀ {vars : List (Nat × String)} {i : Nat},
      findVariable vars e n = some i → vars.get? i = some (e, n) := by
  intro vars
  induction vars with
  | nil => intro i h; exact absurd h (by simp [findVariable])
  | cons en rest ih =>
    intro i h
    unfold findVariable at h
    split at h
    · rename_i hk
      simp only [Option.some.injEq] at h
      subst h
      simp only [List.get?_cons_zero, Option.some.injEq]
      cases en
      simp only at hk
      simp [hk.1, hk.2]
    · obtain ⟨j, hj, rfl⟩ := Option.map_eq_some'.mp h
      simpa using ih hj

theorem mem_export_records {s : IfaceState} {row : Nat × ℚ × String × ℚ} :
    row ∈ export_records s ↔
      ∃ r ∈ s.records, ∃ en : Nat × String,
        s.variables_.get? r.variable_id = some en ∧
        row = (en.1, r.timestamp, en.2, r.value) := by
  unfold export_records
  rw [List.mem_filterMap]
  constructor
  · rintro ⟨r, hr, hf⟩
    obtain ⟨en, hen, hrow⟩ := Option.map_eq_some'.mp hf
    exact ⟨r, hr, en, hen, hrow.symm⟩
  · rintro ⟨r, hr, en, hen, hrow⟩
    exact ⟨r, hr, by rw [hen, hrow]; rfl⟩

theorem get?_append_some {α} {l ext : List α} {i : Nat} {a : α}
    (h : l.get? i = some a) : (l ++ ext).get? i = some a := by
  obtain ⟨hlt, -⟩ := List.get?_eq_some.mp h
  rw [List.get?_eq_getElem?] at h ⊢
  rw [List.getElem?_append_left hlt]
  exact h

theorem flushStep_export_mono {st : IfaceState} {u : VarUpdate}
    {row : Nat × ℚ × String × ℚ} (h : row ∈ export_records st) :
    row ∈ export_records (flushStep st u) := by
  rw [mem_export_records] at h ⊢
  obtain ⟨r, hr, en, hen, hrow⟩ := h
  unfold flushStep
  cases hf : findVariable st.variables_ u.exp_id u.name with
  | some var_id =>
    exact ⟨r, by simp only; exact List.mem_append_left _ hr, en, hen, hrow⟩
  | none =>
    exact ⟨r, by simp only; exact List.mem_append_left _ hr, en,
      by simp only; exact get?_append_some hen, hrow⟩

theorem flushStep_export_self (st : IfaceState) (u : VarUpdate) :
    (u.exp_id, u.timestamp, u.name, u.value) ∈
      export_records (flushStep st u) := by
  rw [mem_export_records]
  unfold flushStep
  cases hf : findVariable st.variables_ u.exp_id u.name with
  | some var_id =>
    refine ⟨⟨var_id, u.timestamp, u.value⟩, ?_, (u.exp_id, u.name), ?_, rfl⟩
    · simp
    · simpa using findVariable_get hf
  | none =>
    refine ⟨⟨st.variables_.length, u.timestamp, u.value⟩, ?_,
      (u.exp_id, u.name), ?_, rfl⟩
    · simp
    · simp only
      rw [List.get?_eq_getElem?, List.getElem?_concat_length]

theorem foldl_flushStep_export_mono (chunk : List VarUpdate) :
    ∀ (st : IfaceState) (row : Nat × ℚ × String × ℚ),
      row ∈ export_records st →
      row ∈ export_records (chunk.foldl flushStep st) := by
  induction chunk with
  | nil => intro st row h; exact h
  | cons u rest ih =>
    intro st row h
    rw [List.foldl_cons]
    exact ih (flushStep st u) row (flushStep_export_mono h)

theorem flushChunk_export_complete (chunk : List VarUpdate) :
    ∀ (st : IfaceState) (u : VarUpdate), u ∈ chunk →
      (u.exp_id, u.timestamp, u.name, u.value) ∈
        export_records (flushChunk st chunk) := by
  induction chunk with
  | nil => intro st u h; simp at h
  | cons u0 rest ih =>
    intro st u h
    unfold flushChunk
    rw [List.foldl_cons]
    rcases List.mem_cons.mp h with h | h
    · subst h
      exact foldl_flushStep_export_mono rest _ _ (flushStep_export_self st u)
    · exact ih (flushStep st u0) u h

theorem foldl_flushChunk_export_mono (chunks : List (List VarUpdate)) :
    ∀ (st : IfaceState) (row : Nat × ℚ × String × ℚ),
      row ∈ export_records st →
      row ∈ export_records (chunks.foldl flushChunk st) := by
  induction chunks with
  | nil => intro st row h; exact h
  | cons c rest ih =>
    intro st row h
    rw [List.foldl_cons]
    exact ih (flushChunk st c) row (foldl_flushStep_export_mono c st row h)

theorem foldl_flushChunk_export (chunks : List (List VarUpdate)) :
    ∀ (st : IfaceState) (chunk : List VarUpdate) (u : VarUpdate),
      chunk ∈ chunks → u ∈ chunk →
      (u.exp_id, u.timestamp, u.name, u.value) ∈
        export_records (chunks.foldl flushChunk st) := by
  induction chunks with
  | nil => intro st chunk u h; simp at h
  | cons c rest ih =>
    intro st chunk u hc hu
    rw [List.foldl_cons]
    rcases List.mem_cons.mp hc with h | h
    · subst h
      exact foldl_flushChunk_export_mono rest _ _
        (flushChunk_export_complete chunk st u hu)
    · exact ih (flushChunk st c) chunk u h hu

theorem export_records_drainQueue (s : IfaceState) {chunk : List VarUpdate}
    {u : VarUpdate} (hc : chunk ∈ s.queue) (hu : u ∈ chunk) :
    (u.exp_id, u.timestamp, u.name, u.value) ∈
      export_records (drainQueue s) :=
  foldl_flushChunk_export s.queue s chunk u hc hu

/-- C7: when `close()` runs with samples still staged in the buffer (a
partial chunk), the final flush hands that chunk to the worker and the
drain commits it, so every staged sample is present in the exported
record set afterwards. -/
theorem C7_close_commits_partial_chunk {s : IfaceState}
    (hsd : s.shutdown = false) {u : VarUpdate} (hu : u ∈ s.buf) :
    ∃ s', close s = .ok s' ∧
      (u.exp_id, u.timestamp, u.name, u.value) ∈ export_records s' := by
  have hflush : flush s = .ok { s with buf := [], queue := s.queue ++ [s.buf] } :=
    flush_ok_iff.mpr ⟨hsd, rfl⟩
  refine ⟨_, by unfold close; rw [hflush], ?_⟩
  have h1 := @export_records_drainQueue
    ({ s with buf := [], queue := s.queue ++ [s.buf] }) s.buf u
    (by simp) hu
  exact h1

/-- Witness for C7: closing an interface holding one staged sample
leaves that sample in the export. -/
theorem C7_witness :
    ∃ s', close ({ initState 100 [] with buf := [⟨7, "x", 3, 0⟩] }) = .ok s' ∧
      ((0 : Nat), (7 : ℚ), "x", (3 : ℚ)) ∈ export_records s' :=
  @C7_close_commits_partial_chunk ({ initState 100 [] with
    buf := [⟨7, "x", 3, 0⟩] }) rfl ⟨7, "x", 3, 0⟩ (by decide)

/-! ### Claim C3 -/

/-- C3: when the first message of a connection is a well-formed `version`
message whose major number differs from the server major (1), the server
sends nothing (in particular no `welcome`), leaves the experiment
interface untouched (no `ExperimentInstance` row is created), and closes
the connection. -/
theorem C3_version_mismatch_rejected (iface : IfaceState) (address : String)
    (maj minr : Int) (hmaj : maj ≠ 1) :
    wait_for_version iface address (versionMsg maj minr) =
      ⟨iface, [], true⟩ := by
  have hv : validate_message (versionMsg maj minr) =
      .ok ("version",
        .vmap (.cons "major" (.vint maj) (.cons "minor" (.vint minr) .nil))) :=
    rfl
  have hne : version_major ≠ maj := fun h => hmaj h.symm
  unfold wait_for_version
  rw [hv]
  simp [PyMap.lookup, hne]

/-- Witness for C3: a `version\x7b2, 0\x7d` handshake against a fresh
interface. -/
theorem C3_witness :
    wait_for_version (initState 4 []) "10.0.0.1:5000" (versionMsg 2 0) =
      ⟨initState 4 [], [], true⟩ :=
  C3_version_mismatch_rejected (initState 4 []) "10.0.0.1:5000" 2 0
    (by decide)

/-! ### Claim C4 -/

/-- The payload shape the claim describes for a `record` message: a map
whose `timestamp` key holds a timestamp, whose `variables` key holds a
map from names to numeric or boolean scalars, and which has no other
keys. -/
def RecordPayloadShape (p : PyVal) : Prop :=
  ∃ kvs : PyMap, p = .vmap kvs ∧
    kvs.containsKey "timestamp" = true ∧
    kvs.containsKey "variables" = true ∧
    ∀ kv ∈ kvs.entries,
      (kv.1 = "timestamp" ∧ ∃ ts : ℚ, kv.2 = PyVal.vdate ts) ∨
      (kv.1 = "variables" ∧ ∃ vars : PyMap, kv.2 = PyVal.vmap vars ∧
        ∀ en ∈ vars.entries,
          (∃ n : Int, en.2 = PyVal.vint n) ∨ (∃ q : ℚ, en.2 = PyVal.vfloat q) ∨
          (∃ b : Bool, en.2 = PyVal.vbool b))

theorem allEntries_eq_true_iff (p : String → PyVal → Bool) :
    ∀ kvs : PyMap, kvs.allEntries p = true ↔
      ∀ kv ∈ kvs.entries, p kv.1 kv.2 = true
  | .nil => by simp [PyMap.allEntries, PyMap.entries]
  | .cons k v tl => by
    have ih := allEntries_eq_true_iff p tl
    simp only [PyMap.allEntries, PyMap.entries, Bool.and_eq_true, ih,
      List.mem_cons]
    constructor
    · rintro ⟨h1, h2⟩ kv (rfl | hm)
      · exact h1
      · exact h2 kv hm
    · intro h
      exact ⟨h (k, v) (Or.inl rfl), fun kv hm => h kv (Or.inr hm)⟩

theorem isScalarVal_iff (v : PyVal) : isScalarVal v = true ↔
    (∃ n : Int, v = PyVal.vint n) ∨ (∃ q : ℚ, v = PyVal.vfloat q) ∨
    (∃ b : Bool, v = PyVal.vbool b) := by
  cases v <;> simp [isScalarVal]

theorem isTimestampVal_iff (v : PyVal) : isTimestampVal v = true ↔
    ∃ ts : ℚ, v = PyVal.vdate ts := by
  cases v <;> simp [isTimestampVal]

theorem validRecordEntry_iff (k : String) (v : PyVal) :
    validRecordEntry k v = true ↔
      ((k = "timestamp" ∧ ∃ ts : ℚ, v = PyVal.vdate ts) ∨
       (k = "variables" ∧ ∃ vars : PyMap, v = PyVal.vmap vars ∧
         ∀ en ∈ vars.entries,
           (∃ n : Int, en.2 = PyVal.vint n) ∨ (∃ q : ℚ, en.2 = PyVal.vfloat q) ∨
           (∃ b : Bool, en.2 = PyVal.vbool b))) := by
  unfold validRecordEntry
  by_cases hk : k = "timestamp"
  · rw [if_pos hk]
    subst hk
    simp [isTimestampVal_iff]
  · rw [if_neg hk]
    by_cases hk2 : k = "variables"
    · rw [if_pos hk2]
      subst hk2
      cases v with
      | vmap vars =>
        rw [allEntries_eq_true_iff]
        constructor
        · intro h
          refine Or.inr ⟨rfl, vars, rfl, fun en hen => ?_⟩
          rw [← isScalarVal_iff]
          exact h en hen
        · rintro (⟨hts, -⟩ | ⟨-, vars', heq, h⟩)
          · exact absurd hts (by decide)
          · intro en hen
            rw [isScalarVal_iff]
            cases heq
            exact h en hen
      | vint n => simp [hk]
      | vfloat q => simp [hk]
      | vbool b => simp [hk]
      | vstr s => simp [hk]
      | vbytes bs => simp [hk]
      | vnone => simp [hk]
      | vdate ts => simp [hk]
      | vuuid u => simp [hk]
      | vlist xs => simp [hk]
    · rw [if_neg hk2]
      simp [hk, hk2]

/-- C4: `validate_message` accepts a `record` message exactly when its
payload is a map binding `timestamp` to a timestamp and `variables` to a
map from names to numeric or boolean scalars (and nothing else), and it
returns the payload unchanged; every other payload shape for `record`
yields the InvalidMessage error. -/
theorem C4_record_validation_iff_shape (p : PyVal) :
    validate_message (mkMessage "record" p) = .ok ("record", p) ↔
      RecordPayloadShape p := by
  have hred : validate_message (mkMessage "record" p) =
      (match msgPayloadSchemas "record" p with
       | some true => .ok ("record", p)
       | some false => Except.error .invalidMessage
       | none => Except.error .invalidMessage) := rfl
  rw [hred]
  cases p with
  | vmap kvs =>
    have hsch : msgPayloadSchemas "record" (PyVal.vmap kvs) =
        some (kvs.containsKey "timestamp" && kvs.containsKey "variables" &&
          kvs.allEntries validRecordEntry) := rfl
    rw [hsch]
    cases hb : (kvs.containsKey "timestamp" && kvs.containsKey "variables" &&
        kvs.allEntries validRecordEntry) with
    | false =>
      constructor
      · intro h; exact absurd h (by simp)
      · rintro ⟨kvs', heq, h1, h2, h3⟩
        cases heq
        exfalso
        rw [Bool.eq_false_iff] at hb
        exact hb (by
          simp only [Bool.and_eq_true, allEntries_eq_true_iff]
          exact ⟨⟨h1, h2⟩, fun kv hm => (validRecordEntry_iff kv.1 kv.2).mpr
            (h3 kv hm)⟩)
    | true =>
      simp only [Bool.and_eq_true, allEntries_eq_true_iff] at hb
      obtain ⟨⟨h1, h2⟩, h3⟩ := hb
      simp only [true_iff]
      exact ⟨kvs, rfl, h1, h2,
        fun kv hm => (validRecordEntry_iff kv.1 kv.2).mp (h3 kv hm)⟩
  | vint n =>
    simp only [show msgPayloadSchemas "record" (PyVal.vint n) = some false
      from rfl]
    constructor
    · intro h; exact absurd h (by simp)
    · rintro ⟨kvs, heq, -⟩; exact PyVal.noConfusion heq
  | vfloat q =>
    simp only [show msgPayloadSchemas "record" (PyVal.vfloat q) = some false
      from rfl]
    constructor
    · intro h; exact absurd h (by simp)
    · rintro ⟨kvs, heq, -⟩; exact PyVal.noConfusion heq
  | vbool b =>
    simp only [show msgPayloadSchemas "record" (PyVal.vbool b) = some false
      from rfl]
    constructor
    · intro h; exact absurd h (by simp)
    · rintro ⟨kvs, heq, -⟩; exact PyVal.noConfusion heq
  | vstr s =>
    simp only [show msgPayloadSchemas "record" (PyVal.vstr s) = some false
      from rfl]
    constructor
    · intro h; exact absurd h (by simp)
    · rintro ⟨kvs, heq, -⟩; exact PyVal.noConfusion heq
  | vbytes bs =>
    simp only [show msgPayloadSchemas "record" (PyVal.vbytes bs) = some false
      from rfl]
    constructor
    · intro h; exact absurd h (by simp)
    · rintro ⟨kvs, heq, -⟩; exact PyVal.noConfusion heq
  | vnone =>
    simp only [show msgPayloadSchemas "record" PyVal.vnone = some false
      from rfl]
    constructor
    · intro h; exact absurd h (by simp)
    · rintro ⟨kvs, heq, -⟩; exact PyVal.noConfusion heq
  | vdate ts =>
    simp only [show msgPayloadSchemas "record" (PyVal.vdate ts) = some false
      from rfl]
    constructor
    · intro h; exact absurd h (by simp)
    · rintro ⟨kvs, heq, -⟩; exact PyVal.noConfusion heq
  | vuuid u =>
    simp only [show msgPayloadSchemas "record" (PyVal.vuuid u) = some false
      from rfl]
    constructor
    · intro h; exact absurd h (by simp)
    · rintro ⟨kvs, heq, -⟩; exact PyVal.noConfusion heq
  | vlist xs =>
    simp only [show msgPayloadSchemas "record" (PyVal.vlist xs) = some false
      from rfl]
    constructor
    · intro h; exact absurd h (by simp)
    · rintro ⟨kvs, heq, -⟩; exact PyVal.noConfusion heq

/-- Witness for C4: on a concrete well-shaped `record` payload the
validator accepts (by evaluation), so the equivalence yields the shape. -/
theorem C4_witness :
    RecordPayloadShape
      (.vmap (.cons "timestamp" (.vdate 5)
        (.cons "variables" (.vmap (.cons "a" (.vint 1) .nil)) .nil))) :=
  (C4_record_validation_iff_shape
    (.vmap (.cons "timestamp" (.vdate 5)
      (.cons "variables" (.vmap (.cons "a" (.vint 1) .nil)) .nil)))).mp rfl

/-! ### Claim C10 -/

/-- C10: a successful `record_variables` call leaves strictly fewer than
`buf_size` samples in the staging buffer, and it hands the whole staged
buffer to the writer thread (clearing the buffer) exactly when the
extended buffer reaches the `buf_size` threshold. -/
theorem C10_staging_buffer_invariant {s s' : IfaceState} (i : Nat) (t : ℚ)
    (ps : List (String × ℚ)) (hbs : 0 < s.buf_size)
    (h : record_variables s i t ps = .ok s') :
    s'.buf.length < s.buf_size ∧
    (s.buf_size ≤ s.buf.length + ps.length →
       s'.buf = [] ∧
       s'.queue = s.queue ++ [s.buf ++ ps.map (fun kv => ⟨t, kv.1, kv.2, i⟩)]) ∧
    (s.buf.length + ps.length < s.buf_size →
       s'.buf = s.buf ++ ps.map (fun kv => ⟨t, kv.1, kv.2, i⟩) ∧
       s'.queue = s.queue) := by
  unfold record_variables at h
  dsimp only at h
  split at h
  · rename_i hc
    simp only [List.length_append, List.length_map] at hc
    rw [flush_ok_iff] at h
    obtain ⟨hsd, rfl⟩ := h
    refine ⟨by simpa using hbs, fun _ => ⟨rfl, rfl⟩, fun hlt => ?_⟩
    omega
  · rename_i hc
    simp only [List.length_append, List.length_map, not_le] at hc
    simp only [Except.ok.injEq] at h
    subst h
    refine ⟨by simpa using hc, fun hge => ?_, fun _ => ⟨rfl, rfl⟩⟩
    omega

/-- Witness for C10: a one-sample call on a state holding one staged
sample with `buf_size = 3` stays strictly below the threshold. -/
theorem C10_witness :
    ({ initState 3 [] with buf := [⟨0, "a", 1, 0⟩, ⟨5, "b", 2, 0⟩] } :
      IfaceState).buf.length < 3 :=
  (@C10_staging_buffer_invariant
    ({ initState 3 [] with buf := [⟨0, "a", 1, 0⟩] })
    ({ initState 3 [] with buf := [⟨0, "a", 1, 0⟩, ⟨5, "b", 2, 0⟩] })
    0 5 [("b", 2)] (by decide) rfl).1

/-! ### Claim C2 -/

/-- C2 (amended): decoding the encoding of a message returns the message
unchanged, for every message over the supported leaf types whose maps are
free of the reserved extension keys `__date__` and `__uuid__`. -/
theorem C2_decode_encode_roundtrip (v : PyVal) (h : reservedFree v = true) :
    decodeTree (encodeTree v) = .ok v :=
  rt_val v h

/-- Counterexample to C2 as stated: a message that is itself a map with
the single key `__date__` and a float value — a legal map of supported
leaves — is turned into a datetime by the decode hook, so decode after
encode does not return it. -/
theorem C2_counterexample :
    decodeTree (encodeTree (.vmap (.cons "__date__" (.vfloat 5) .nil))) ≠
      .ok (.vmap (.cons "__date__" (.vfloat 5) .nil)) := by
  intro h
  have h2 : (Except.ok (PyVal.vdate 5) : Except DecodeErr PyVal) =
      .ok (.vmap (.cons "__date__" (.vfloat 5) .nil)) :=
    (rfl : decodeTree (encodeTree (.vmap (.cons "__date__" (.vfloat 5) .nil)))
      = .ok (.vdate 5)).symm.trans h
  exact PyVal.noConfusion (Except.ok.inj h2)

/-- Witness for C2 on a concrete reserved-free message holding a nested
map, a timestamp, an int and a UUID. -/
theorem C2_witness :
    decodeTree (encodeTree (.vmap (.cons "type" (.vstr "record")
      (.cons "payload" (.vmap (.cons "timestamp" (.vdate 5)
        (.cons "variables" (.vmap (.cons "a" (.vint 1) .nil))
          (.cons "id" (.vuuid ⟨1, by norm_num⟩) .nil)))) .nil)))) =
      .ok (.vmap (.cons "type" (.vstr "record")
        (.cons "payload" (.vmap (.cons "timestamp" (.vdate 5)
          (.cons "variables" (.vmap (.cons "a" (.vint 1) .nil))
            (.cons "id" (.vuuid ⟨1, by norm_num⟩) .nil)))) .nil))) :=
  C2_decode_encode_roundtrip _ rfl

/-! ### Claim C8 -/

/-- C8 (amended): the decode hook rewrites any map containing the key
`__date__` into the timestamp built from that value (regardless of other
keys); otherwise it rewrites any map containing `__uuid__` into the
parsed UUID; a map containing neither key passes through unchanged. -/
theorem C8_decode_hook_behavior (kvs : PyMap) :
    (∀ q : ℚ, kvs.lookup "__date__" = some (.vfloat q) →
       decode_vartype kvs = .ok (.vdate q)) ∧
    (kvs.lookup "__date__" = none →
       ∀ (s : String) (u : Fin (2 ^ 128)),
         kvs.lookup "__uuid__" = some (.vstr s) →
         pyUUIDFromHex s = some u → decode_vartype kvs = .ok (.vuuid u)) ∧
    (kvs.lookup "__date__" = none → kvs.lookup "__uuid__" = none →
       decode_vartype kvs = .ok (.vmap kvs)) := by
  refine ⟨?_, ?_, ?_⟩
  · intro q hq
    unfold decode_vartype
    rw [hq]
  · intro hd s u hs hu
    unfold decode_vartype
    simp only [hd, hs, hu]
  · intro hd hu
    unfold decode_vartype
    rw [hd, hu]

/-- Counterexample to C8 as stated: a map holding `__date__` together
with an additional key is rewritten to a timestamp by the decode hook,
not passed through unchanged. -/
theorem C8_counterexample :
    decode_vartype (.cons "__date__" (.vfloat 0) (.cons "x" (.vint 1) .nil)) ≠
      .ok (.vmap (.cons "__date__" (.vfloat 0) (.cons "x" (.vint 1) .nil))) := by
  intro h
  have h2 : (Except.ok (PyVal.vdate 0) : Except DecodeErr PyVal) =
      .ok (.vmap (.cons "__date__" (.vfloat 0) (.cons "x" (.vint 1) .nil))) :=
    (rfl : decode_vartype (.cons "__date__" (.vfloat 0)
      (.cons "x" (.vint 1) .nil)) = .ok (.vdate 0)).symm.trans h
  exact PyVal.noConfusion (Except.ok.inj h2)

set_option maxRecDepth 4000 in
/-- Witness for C8: the three behaviors at concrete maps. -/
theorem C8_witness :
    decode_vartype (.cons "__date__" (.vfloat 3)
        (.cons "extra" (.vint 9) .nil)) = .ok (.vdate 3) ∧
    decode_vartype (.cons "__uuid__"
        (.vstr "00000000000000000000000000000001") .nil) =
      .ok (.vuuid ⟨1, by norm_num⟩) ∧
    decode_vartype (.cons "a" (.vint 2) .nil) =
      .ok (.vmap (.cons "a" (.vint 2) .nil)) :=
  ⟨(C8_decode_hook_behavior
      (.cons "__date__" (.vfloat 3) (.cons "extra" (.vint 9) .nil))).1 3 rfl,
   (C8_decode_hook_behavior
      (.cons "__uuid__" (.vstr "00000000000000000000000000000001") .nil)).2.1
      rfl "00000000000000000000000000000001" ⟨1, by norm_num⟩ rfl (by decide),
   (C8_decode_hook_behavior (.cons "a" (.vint 2) .nil)).2.2 rfl rfl⟩

/-! ### Claim C9 -/

/-- C9: evaluating `encode_vartype` at the UUID with integer value 1
shows the encoded string is padded with spaces, not zeros: the format
spec `32x` right-aligns in a 32-character field with space fill, while
the specification (and the sibling `GUID` column type in
`src/exprec/models.py`, which uses `032x`) requires zero padding. -/
theorem C9_encode_uuid_space_padded :
    encode_vartype (.vuuid ⟨1, by norm_num⟩) =
      .vmap (.cons "__uuid__"
        (.vstr "                               1") .nil) ∧
    ("                               1" : String) ≠
      "00000000000000000000000000000001" := by
  constructor
  · have hfmt : format32x 1 = "                               1" := by
      simp [format32x, natToHex, natToHexRev, hexDigitChar]
    show PyVal.vmap (.cons "__uuid__" (.vstr (format32x 1)) .nil) = _
    rw [hfmt]
  · decide

end Exprec
